import Mathlib

/-!
Verification development for the ao3_backup crawler's scheduling and dispatch
subsystem.  The definitions below are shallow embeddings of the Python source:

* `src/ao3_backup/db.py` — the job queue (`enqueue_ids`, `claim_batch`,
  `requeue`, `complete`) and block bookkeeping (`create_blocks_and_enqueue`);
* `src/ao3_backup/workers/worker_update.py` — the restricted-outcome
  persistence step of the update worker;
* `src/ao3_backup/classify.py` — the outcome classifier;
* `src/ao3/requester.py` — the token-bucket throttle and the 429 handling;
* `src/ao3_backup/creds.py` — credential cooldown management;
* `src/ao3_backup/storage.py` — `write_html_gz` (with a bit-accurate SHA-256).

Database tables are modelled as lists of rows; each executed SQL statement is
one atomic step on that state (the model used for reasoning about statement
interleavings across sessions).  Timestamps are integers (seconds), wall-clock
quantities for the rate limiter are rationals.
-/

namespace Ao3Backup

/-- One row of the `queue` table from `src/ao3_backup/db.py`.  The primary key
is the single column `id`; server defaults are `mode='guest'`, `priority=100`,
`next_attempt=CURRENT_TIMESTAMP`, `attempts=0`. -/
structure QueueRow where
  id : Int
  mode : String
  priority : Int
  next_attempt : Int
  attempts : Nat
  locked_by : Option String
  locked_at : Option Int
deriving DecidableEq, Repr

/-- A freshly inserted queue row: `INSERT INTO queue (id, mode, priority)`
with the remaining columns taking their server defaults (insertion time for
`next_attempt`). -/
def newRow (i : Int) (mode : String) (priority : Int) (now : Int) : QueueRow :=
  ⟨i, mode, priority, now, 0, none, none⟩

/-- Whether some row with primary key `i` is present. -/
def hasId (q : List QueueRow) (i : Int) : Bool :=
  q.any (fun r => r.id == i)

/-- Number of rows with primary key `i` (0 or 1 in any state the database can
actually reach, since `id` is the primary key). -/
def countId (q : List QueueRow) (i : Int) : Nat :=
  (q.filter (fun r => r.id == i)).length

/-- One `INSERT OR IGNORE INTO queue (id, mode, priority) VALUES (i, mode, p)`:
the row is inserted only when no row with that `id` exists (the `id` column is
the sole primary key), otherwise the statement is a silent no-op. -/
def insertOrIgnore (q : List QueueRow) (i : Int) (mode : String) (priority : Int)
    (now : Int) : List QueueRow :=
  if hasId q i then q else q ++ [newRow i mode priority now]

/-- `enqueue_ids` from `src/ao3_backup/db.py` (sqlite dialect): a multi-row
`INSERT OR IGNORE`, processed row by row, returning `len(ids)`. -/
def enqueue_ids (q : List QueueRow) (ids : List Int) (mode : String)
    (priority : Int) (now : Int) : List QueueRow × Nat :=
  (ids.foldl (fun acc i => insertOrIgnore acc i mode priority now) q, ids.length)

/-- Integer range `[s, e]` inclusive, as used by `enqueue_range`
(`range(start, stop + 1)`). -/
def intRange (s e : Int) : List Int :=
  (List.range (e + 1 - s).toNat).map (fun k => s + (k : Int))

/-- `enqueue_range` from `src/ao3_backup/db.py`. -/
def enqueue_range (q : List QueueRow) (s e : Int) (mode : String)
    (priority : Int) (now : Int) : List QueueRow × Nat :=
  enqueue_ids q (intRange s e) mode priority now

/-- Eligibility test of the claim query: same mode, `locked_by IS NULL`,
`next_attempt <= now`. -/
def claimable (r : QueueRow) (mode : String) (now : Int) : Bool :=
  r.mode == mode && r.locked_by.isNone && decide (r.next_attempt ≤ now)

/-- The `ORDER BY priority ASC, id ASC` comparison. -/
def rowLE (a b : QueueRow) : Bool :=
  decide (a.priority < b.priority) ||
    (a.priority == b.priority && decide (a.id ≤ b.id))

/-- Insert into a `rowLE`-sorted list. -/
def insertSorted (a : QueueRow) : List QueueRow → List QueueRow
  | [] => [a]
  | b :: bs => if rowLE a b then a :: b :: bs else b :: insertSorted a bs

/-- Sort rows by `(priority ASC, id ASC)`. -/
def sortRows (l : List QueueRow) : List QueueRow :=
  l.foldr insertSorted []

/-- The SELECT statement of the non-postgresql branch of `claim_batch`:
ids of up to `batch` claimable rows of the given mode, in
`(priority, id)` order. -/
def claimSelect (q : List QueueRow) (mode : String) (batch : Nat)
    (now : Int) : List Int :=
  ((sortRows (q.filter (fun r => claimable r mode now))).take batch).map
    (fun r => r.id)

/-- The UPDATE statement of the non-postgresql branch of `claim_batch`:
`SET locked_by = worker, locked_at = now WHERE id IN ids AND locked_by IS NULL`.
A row whose lock is already set is left untouched. -/
def claimUpdate (q : List QueueRow) (ids : List Int) (worker : String)
    (now : Int) : List QueueRow :=
  q.map (fun r =>
    if ids.contains r.id && r.locked_by.isNone then
      { r with locked_by := some worker, locked_at := some now }
    else r)

/-- The postgresql branch of `claim_batch`: a single
`UPDATE ... WHERE id IN (SELECT ... FOR UPDATE SKIP LOCKED) RETURNING id`
statement, i.e. selection and lock-marking as one atomic step. -/
def claim_batch_pg (q : List QueueRow) (worker : String) (batch : Nat)
    (mode : String) (now : Int) : List QueueRow × List Int :=
  let ids := claimSelect q mode batch now
  (claimUpdate q ids worker now, ids)

/-- The non-postgresql branch of `claim_batch`, run without interference:
the SELECT step followed by the UPDATE step.  Unlike `claim_batch_pg`, in the
source these are two separate statements, so steps of another session may be
interleaved between them. -/
def claim_batch_fallback (q : List QueueRow) (worker : String) (batch : Nat)
    (mode : String) (now : Int) : List QueueRow × List Int :=
  let ids := claimSelect q mode batch now
  (claimUpdate q ids worker now, ids)

/-- One interleaving of two concurrent non-postgresql `claim_batch` calls:
caller A runs its SELECT, caller B runs its SELECT against the same (not yet
updated) state, then both UPDATE statements run.  Returns the two callers'
returned id lists and the final queue state. -/
def claimInterleaved (q0 : List QueueRow) (wA wB : String) (nA nB : Nat)
    (mode : String) (now : Int) : List Int × List Int × List QueueRow :=
  let idsA := claimSelect q0 mode nA now
  let idsB := claimSelect q0 mode nB now
  let q1 := claimUpdate q0 idsA wA now
  let q2 := claimUpdate q1 idsB wB now
  (idsA, idsB, q2)

/-- `requeue` from `src/ao3_backup/db.py`: clear the lock, bump `attempts`,
push `next_attempt` to `now + delay`. -/
def requeue (q : List QueueRow) (i : Int) (delay : Int) (now : Int) :
    List QueueRow :=
  q.map (fun r =>
    if r.id == i then
      { r with attempts := r.attempts + 1, locked_by := none,
               locked_at := none, next_attempt := now + delay }
    else r)

/-- `complete` from `src/ao3_backup/db.py`:
`DELETE FROM queue WHERE id = ao3_id` — no mode filter. -/
def complete (q : List QueueRow) (i : Int) : List QueueRow :=
  q.filter (fun r => !(r.id == i))

/-- One row of the `blocks` table (`id` autoincrement, `start`/`stop`
inclusive bounds, mode, priority). -/
structure BlockRow where
  id : Nat
  start : Int
  stop : Int
  mode : String
  priority : Int
deriving DecidableEq, Repr

/-- The crawl database state used by the block manager: the queue plus the
blocks table. -/
structure CrawlDB where
  queue : List QueueRow
  blocks : List BlockRow
deriving DecidableEq, Repr

/-- The empty database (fresh `create_all`). -/
def emptyDB : CrawlDB := ⟨[], []⟩

/-- Loop body of `create_blocks_and_enqueue`, recursing on explicit fuel (the
source `while cur <= stop` advances `cur` by `block_size ≥ 1` per iteration, so
`(stop + 1 - start).toNat` iterations always suffice).  Each iteration inserts
one block row covering `[cur, min stop (cur + block_size - 1)]` and enqueues
that range. -/
def cbeAux : Nat → CrawlDB → Int → Int → Int → String → Int → Int →
    CrawlDB × List Nat
  | 0, db, _, _, _, _, _, _ => (db, [])
  | fuel + 1, db, cur, stop, bs, mode, prio, now =>
    if cur ≤ stop then
      let bstop := min stop (cur + bs - 1)
      let bid := db.blocks.length + 1
      let db1 : CrawlDB :=
        { db with blocks := db.blocks ++ [⟨bid, cur, bstop, mode, prio⟩] }
      let db2 : CrawlDB :=
        { db1 with queue := (enqueue_range db1.queue cur bstop mode prio now).1 }
      let rest := cbeAux fuel db2 (bstop + 1) stop bs mode prio now
      (rest.1, bid :: rest.2)
    else (db, [])

/-- `create_blocks_and_enqueue` from `src/ao3_backup/db.py`: partition
`[start, stop]` into chunks of `block_size`, insert one block row per chunk and
enqueue every id of the chunk; returns the new block ids. -/
def create_blocks_and_enqueue (db : CrawlDB) (start stop bs : Int)
    (mode : String) (prio : Int) (now : Int) : CrawlDB × List Nat :=
  cbeAux (stop + 1 - start).toNat db start stop bs mode prio now

/-- A row of the `works` table, restricted to the columns the worker claims
touch (`status`, `restricted`, `needs_auth`). -/
structure WorkRow where
  id : Int
  status : String
  restricted : Bool
  needs_auth : Bool
deriving DecidableEq, Repr

/-- An entry of the append-only `fetch_log` table, restricted to the columns
the update worker fills in. -/
structure LogRow where
  ao3_id : Int
  worker : String
  outcome : String
  http_status : Int
deriving DecidableEq, Repr

/-- The state touched by the update worker's per-id persistence transaction. -/
structure WorkerDB where
  queue : List QueueRow
  works : List WorkRow
  fetchLog : List LogRow
deriving DecidableEq, Repr

/-- `INSERT OR REPLACE INTO works ...`: drop any existing row with this id and
insert the new one. -/
def insertOrReplaceWork (ws : List WorkRow) (w : WorkRow) : List WorkRow :=
  (ws.filter (fun r => !(r.id == w.id))) ++ [w]

/-- The `restricted` branch of `handle_one` in
`src/ao3_backup/workers/worker_update.py` (lines 137–168): inside one
transaction, (1) `INSERT OR REPLACE INTO works (..., restricted, needs_auth)
VALUES (:id, 'restricted', ..., 1, 1)`; (2) `INSERT OR IGNORE INTO queue
(id, mode, priority) VALUES (:id, 'auth', 50)`; (3) `DELETE FROM queue WHERE
id = :id AND mode = 'update'`; (4) append a fetch_log row. -/
def updateWorkerRestrictedStep (db : WorkerDB) (i : Int) (http : Int)
    (workerName : String) (now : Int) : WorkerDB :=
  let works1 := insertOrReplaceWork db.works ⟨i, "restricted", true, true⟩
  let queue1 := insertOrIgnore db.queue i "auth" 50 now
  let queue2 := queue1.filter (fun r => !(r.id == i && r.mode == "update"))
  { queue := queue2, works := works1,
    fetchLog := db.fetchLog ++ [⟨i, workerName, "restricted-update", http⟩] }

end Ao3Backup

namespace Ao3Classify

/-- Python `needle in hay` on strings: substring containment. -/
def strContains (hay needle : String) : Bool :=
  let h := hay.toList
  let n := needle.toList
  (List.range (h.length + 1)).any (fun k => n.isPrefixOf (h.drop k))

/-- Python `str.lower()` restricted to ASCII letters, matching
`Char.toLower`; the marker phrases compared against are pure ASCII. -/
def pyLower (s : String) : String :=
  String.map Char.toLower s

/-- RESTRICTED_MARKERS from `src/ao3_backup/classify.py`. -/
def RESTRICTED_MARKERS : List String :=
  ["This work is only available to registered users of AO3",
   "This work is only available to users 18 and older",
   "Log in to access more works"]

/-- UNREVEALED_MARKERS from `src/ao3_backup/classify.py`. -/
def UNREVEALED_MARKERS : List String :=
  ["This work is unrevealed",
   "This work will be revealed"]

/-- `classify_response` from `src/ao3_backup/classify.py`, line for line.  The
Python guards `(final_url or "")` and `(text or "")` only replace a falsy value
by the empty string, which for string-typed inputs changes nothing. -/
def classify_response (url : String) (status_code : Int) (text : String)
    (final_url : String) : String :=
  if status_code == 404 then "not_found"
  else if strContains final_url "users/login" then "restricted"
  else
    let lower := pyLower text
    if RESTRICTED_MARKERS.any (fun m => strContains lower (pyLower m)) then
      "restricted"
    else if UNREVEALED_MARKERS.any (fun m => strContains lower (pyLower m)) then
      "unrevealed"
    else if status_code == 200 then "public"
    else if status_code == 401 || status_code == 403 then "restricted"
    else "error"

/-- The ordered rule list of the specification (section 4.5), one
(condition, outcome) pair per rule, in the stated order. -/
def specRules (status_code : Int) (text final_url : String) :
    List (Bool × String) :=
  [(status_code == 404, "not_found"),
   (strContains final_url "users/login", "restricted"),
   (RESTRICTED_MARKERS.any (fun m => strContains (pyLower text) (pyLower m)),
     "restricted"),
   (UNREVEALED_MARKERS.any (fun m => strContains (pyLower text) (pyLower m)),
     "unrevealed"),
   (status_code == 200, "public"),
   (status_code == 401 || status_code == 403, "restricted")]

/-- First matching rule of an ordered rule list; `"error"` when none matches
(the specification's final catch-all rule). -/
def firstMatch : List (Bool × String) → String
  | [] => "error"
  | (c, o) :: rest => if c then o else firstMatch rest

end Ao3Classify

namespace Ao3Requester

/-- Throttle state of `Requester` from `src/ao3/requester.py`: `_capacity`,
`_window`, `_tokens`, `_last` (wall-clock quantities as rationals). -/
structure Throttle where
  capacity : Nat
  window : ℚ
  tokens : ℚ
  last : ℚ
deriving DecidableEq, Repr

/-- `Requester.__init__`'s throttle state: `_capacity = max(1, int(rpw))`,
`_tokens = _capacity`, `_last = time.monotonic()` (clock origin 0 here). -/
def initThrottle (requests_per_window : Nat) (window_seconds : ℚ) : Throttle :=
  let c := max 1 requests_per_window
  ⟨c, window_seconds, (c : ℚ), 0⟩

/-- The refilled token count computed at the top of `Requester._throttle`:
`min(capacity, tokens + elapsed * (capacity / window))`. -/
def refillTokens (st : Throttle) (now : ℚ) : ℚ :=
  min (st.capacity : ℚ) (st.tokens + (now - st.last) * ((st.capacity : ℚ) / st.window))

/-- `Requester._throttle`, called with the wall-clock time `now` of its
`time.monotonic()` read.  Returns the new state and the time at which the
request is admitted: `now` when at least one token is available, otherwise
`now + sleep_for` with `sleep_for = (1 - tokens) * (window / capacity)`.
Note the source sets `_last = now` before any sleep and never advances it
across the sleep; after a sleep it sets `_tokens = 0` and then runs the final
`_tokens = max(0, _tokens - 1)` like every call. -/
def throttleStep (st : Throttle) (now : ℚ) : Throttle × ℚ :=
  let tokens1 := refillTokens st now
  if tokens1 < 1 then
    let sleepFor := (1 - tokens1) * (st.window / (st.capacity : ℚ))
    let tokens2 : ℚ := 0
    ({ st with tokens := max 0 (tokens2 - 1), last := now }, now + sleepFor)
  else
    ({ st with tokens := max 0 (tokens1 - 1), last := now }, now)

/-- Run the throttle over a list of call entry times, collecting each call's
admission time. -/
def throttleRun (st : Throttle) : List ℚ → Throttle × List ℚ
  | [] => (st, [])
  | t :: ts =>
    let s1 := throttleStep st t
    let s2 := throttleRun s1.1 ts
    (s2.1, s1.2 :: s2.2)

/-- Number of admission times falling inside the closed interval
`[t, t + w]`. -/
def countAdmitsIn (admits : List ℚ) (t w : ℚ) : Nat :=
  (admits.filter (fun a => decide (t ≤ a) && decide (a ≤ t + w))).length

/-- Python `float(value)` on the strings this code meets: optional sign,
decimal digits with optional fraction and optional exponent, surrounding
whitespace allowed; `none` when the string is not a valid float literal.
(Specials such as `inf`/`nan` and digit underscores are not modelled.) -/
def pyFloatOfChars (cs : List Char) : Option ℚ :=
  let cs := cs.dropWhile (fun c => c == ' ' || c == '\t' || c == '\n' || c == '\r')
  let cs := (cs.reverse.dropWhile
    (fun c => c == ' ' || c == '\t' || c == '\n' || c == '\r')).reverse
  let (sign, cs) :=
    match cs with
    | '-' :: rest => ((-1 : ℚ), rest)
    | '+' :: rest => ((1 : ℚ), rest)
    | _ => ((1 : ℚ), cs)
  let intPart := cs.takeWhile Char.isDigit
  let cs1 := cs.dropWhile Char.isDigit
  let (fracPart, cs2) :=
    match cs1 with
    | '.' :: rest => (rest.takeWhile Char.isDigit,
                      rest.dropWhile Char.isDigit)
    | _ => ([], cs1)
  if intPart.isEmpty && fracPart.isEmpty then none
  else
    let digitsVal : List Char → ℚ :=
      fun ds => ((ds.foldl (fun acc c => acc * 10 + (c.toNat - 48)) 0 : Nat) : ℚ)
    let mantissa : ℚ :=
      sign * (digitsVal intPart + digitsVal fracPart / (10 : ℚ) ^ fracPart.length)
    match cs2 with
    | [] => some mantissa
    | e :: rest =>
      if e == 'e' || e == 'E' then
        let (esign, rest) :=
          match rest with
          | '-' :: r => ((-1 : Int), r)
          | '+' :: r => ((1 : Int), r)
          | _ => ((1 : Int), rest)
        let eDigits := rest.takeWhile Char.isDigit
        let rest2 := rest.dropWhile Char.isDigit
        if eDigits.isEmpty || !rest2.isEmpty then none
        else
          let eVal : Int :=
            esign * ((eDigits.foldl (fun acc c => acc * 10 + (c.toNat - 48)) 0 : Nat) : Int)
          some (mantissa * (10 : ℚ) ^ eVal)
      else none

/-- `_parse_retry_after` from `src/ao3/requester.py`: `None`/empty header
gives `None`, otherwise `float(value)` with `ValueError` mapped to `None`. -/
def parse_retry_after (value : Option String) : Option ℚ :=
  match value with
  | none => none
  | some s => if s = "" then none else pyFloatOfChars s.toList

/-- The response data `Requester.request` inspects after the transport
returns. -/
structure ResponseModel where
  status_code : Int
  retryAfterHeader : Option String
deriving DecidableEq, Repr

/-- Result of `Requester.request` once the transport produced a response:
either the distinguished rate-limit signal or the response itself. -/
inductive ReqOutcome where
  | rateLimited (retry_after : Option ℚ)
  | ok (resp : ResponseModel)
deriving DecidableEq, Repr

/-- The tail of `Requester.request` (`src/ao3/requester.py` lines 129–133):
a 429 response is raised as `RateLimitedException(retry_after =
_parse_retry_after(resp.headers.get("Retry-After")))`; anything else is
returned to the caller. -/
def handle_response (resp : ResponseModel) : ReqOutcome :=
  if resp.status_code == 429 then
    .rateLimited (parse_retry_after resp.retryAfterHeader)
  else .ok resp

end Ao3Requester

namespace Ao3Creds

/-- `CredentialRecord` from `src/ao3_backup/creds.py` (the session handle is
irrelevant to cooldown bookkeeping and omitted). -/
structure CredentialRecord where
  username : String
  password : String
  last_used : ℚ
  cooldown_until : ℚ
deriving DecidableEq, Repr

/-- `CredentialRecord.cooldown(seconds)`:
`cooldown_until = max(cooldown_until, time.time() + seconds)`. -/
def cooldown (r : CredentialRecord) (now seconds : ℚ) : CredentialRecord :=
  { r with cooldown_until := max r.cooldown_until (now + seconds) }

/-- `CredentialRecord.is_available()`: `time.time() >= cooldown_until`. -/
def is_available (r : CredentialRecord) (now : ℚ) : Bool :=
  decide (now ≥ r.cooldown_until)

/-- `CredentialManager.mark_rate_limited(username)`: walk the records, apply
`cooldown` to the first one whose username matches, then `break`. -/
def mark_rate_limited : List CredentialRecord → String → ℚ → ℚ →
    List CredentialRecord
  | [], _, _, _ => []
  | r :: rs, u, now, cd =>
    if r.username == u then cooldown r now cd :: rs
    else r :: mark_rate_limited rs u now cd

/-- First element with the least `last_used`, i.e.
`candidates.sort(key=lambda r: r.last_used)` (a stable ascending sort)
followed by `candidates[0]`. -/
def pickLRU : List CredentialRecord → Option CredentialRecord
  | [] => none
  | r :: rs =>
    match pickLRU rs with
    | none => some r
    | some m => some (if decide (r.last_used ≤ m.last_used) then r else m)

/-- `CredentialManager.pick()`: least-recently-used record among those whose
cooldown has expired; `None` when all are cooling down. -/
def pick (records : List CredentialRecord) (now : ℚ) :
    Option CredentialRecord :=
  pickLRU (records.filter (fun r => is_available r now))

/-- COOLDOWN_SECONDS from `src/ao3_backup/config.py` (default value). -/
def COOLDOWN_SECONDS : ℚ := 900

/-- The `except RateLimitedException` branch of `fetch_with_auth`
(`src/ao3_backup/fetchers/fetch_auth.py` lines 77–90):
`cred_manager.mark_rate_limited(rec.username)` for the picked record. -/
def fetch_auth_rate_limit_branch (records : List CredentialRecord)
    (rec : CredentialRecord) (now : ℚ) : List CredentialRecord :=
  mark_rate_limited records rec.username now COOLDOWN_SECONDS

end Ao3Creds

namespace Ao3Storage

/-- UTF-8 encoding of a single code point under Python's
`encode("utf-8", errors="replace")`: the usual 1–4 byte encoding, with the
surrogate range (the only code points a Python `str` can hold that UTF-8
cannot encode) replaced by `?` (byte 0x3F). -/
def pyEncodeChar (cp : Nat) : List Nat :=
  if cp < 0x80 then [cp]
  else if cp < 0x800 then [0xC0 + cp / 64, 0x80 + cp % 64]
  else if 0xD800 ≤ cp ∧ cp ≤ 0xDFFF then [0x3F]
  else if cp < 0x10000 then
    [0xE0 + cp / 4096, 0x80 + (cp / 64) % 64, 0x80 + cp % 64]
  else
    [0xF0 + cp / 262144, 0x80 + (cp / 4096) % 64, 0x80 + (cp / 64) % 64,
     0x80 + cp % 64]

/-- Python `html.encode("utf-8", errors="replace")`; the Python `str` is
modelled as its list of code points (which, unlike a Lean `String`, may
include lone surrogates). -/
def pyEncode (s : List Nat) : List Nat :=
  s.foldr (fun c acc => pyEncodeChar c ++ acc) []

/-- Truncation to a 32-bit word. -/
def w32 (x : Nat) : Nat := x % 4294967296

/-- 32-bit right rotation. -/
def rotr (n x : Nat) : Nat :=
  w32 ((x >>> n) ||| (x <<< (32 - n)))

/-- SHA-256 round constants. -/
def shaK : List Nat :=
  [1116352408, 1899447441, 3049323471, 3921009573, 961987163, 1508970993,
   2453635748, 2870763221, 3624381080, 310598401, 607225278, 1426881987,
   1925078388, 2162078206, 2614888103, 3248222580, 3835390401, 4022224774,
   264347078, 604807628, 770255983, 1249150122, 1555081692, 1996064986,
   2554220882, 2821834349, 2952996808, 3210313671, 3336571891, 3584528711,
   113926993, 338241895, 666307205, 773529912, 1294757372, 1396182291,
   1695183700, 1986661051, 2177026350, 2456956037, 2730485921, 2820302411,
   3259730800, 3345764771, 3516065817, 3600352804, 4094571909, 275423344,
   430227734, 506948616, 659060556, 883997877, 958139571, 1322822218,
   1537002063, 1747873779, 1955562222, 2024104815, 2227730452, 2361852424,
   2428436474, 2756734187, 3204031479, 3329325298]

/-- SHA-256 initial hash value. -/
def shaH0 : List Nat :=
  [1779033703, 3144134277, 1013904242, 2773480762, 1359893119, 2600822924,
   528734635, 1541459225]

/-- SHA-256 message padding: append 0x80, zero bytes to 56 mod 64, then the
bit length as an 8-byte big-endian integer. -/
def shaPad (msg : List Nat) : List Nat :=
  let len := msg.length
  let zeros := (55 + 64 - len % 64) % 64
  let bitLen := 8 * len
  msg ++ [0x80] ++ List.replicate zeros 0 ++
    ((List.range 8).map (fun i => (bitLen >>> (8 * (7 - i))) % 256))

/-- Big-endian 32-bit words of a byte list. -/
def bytesToWords : List Nat → List Nat
  | b0 :: b1 :: b2 :: b3 :: rest =>
    (b0 * 16777216 + b1 * 65536 + b2 * 256 + b3) :: bytesToWords rest
  | _ => []

/-- Message-schedule extension: grow the 16 block words to 64. -/
def shaExtend (ws : List Nat) : Nat → List Nat
  | 0 => ws
  | n + 1 =>
    let ws := shaExtend ws n
    let i := ws.length
    if i < 64 then
      let w15 := ws.getD (i - 15) 0
      let w2 := ws.getD (i - 2) 0
      let s0 := (rotr 7 w15) ^^^ (rotr 18 w15) ^^^ (w15 >>> 3)
      let s1 := (rotr 17 w2) ^^^ (rotr 19 w2) ^^^ (w2 >>> 10)
      ws ++ [w32 (ws.getD (i - 16) 0 + s0 + ws.getD (i - 7) 0 + s1)]
    else ws

/-- One SHA-256 compression round. -/
def shaRound (st : Nat × Nat × Nat × Nat × Nat × Nat × Nat × Nat)
    (kw : Nat × Nat) : Nat × Nat × Nat × Nat × Nat × Nat × Nat × Nat :=
  let (a, b, c, d, e, f, g, h) := st
  let (k, w) := kw
  let s1 := (rotr 6 e) ^^^ (rotr 11 e) ^^^ (rotr 25 e)
  let ch := (e &&& f) ^^^ ((w32 (4294967295 - e)) &&& g)
  let temp1 := w32 (h + s1 + ch + k + w)
  let s0 := (rotr 2 a) ^^^ (rotr 13 a) ^^^ (rotr 22 a)
  let maj := (a &&& b) ^^^ (a &&& c) ^^^ (b &&& c)
  let temp2 := w32 (s0 + maj)
  (w32 (temp1 + temp2), a, b, c, w32 (d + temp1), e, f, g)

/-- Process one 64-byte chunk, updating the 8-word hash state. -/
def shaChunk (hs : List Nat) (chunk : List Nat) : List Nat :=
  let ws := shaExtend (bytesToWords chunk) 48
  let init := (hs.getD 0 0, hs.getD 1 0, hs.getD 2 0, hs.getD 3 0,
               hs.getD 4 0, hs.getD 5 0, hs.getD 6 0, hs.getD 7 0)
  let fin := (shaK.zip ws).foldl shaRound init
  let (a, b, c, d, e, f, g, h) := fin
  [w32 (hs.getD 0 0 + a), w32 (hs.getD 1 0 + b), w32 (hs.getD 2 0 + c),
   w32 (hs.getD 3 0 + d), w32 (hs.getD 4 0 + e), w32 (hs.getD 5 0 + f),
   w32 (hs.getD 6 0 + g), w32 (hs.getD 7 0 + h)]

/-- Split a byte list into 64-byte chunks (recursion on fuel: one unit per
chunk). -/
def chunks64 : Nat → List Nat → List (List Nat)
  | 0, _ => []
  | _, [] => []
  | fuel + 1, bs => bs.take 64 :: chunks64 fuel (bs.drop 64)

/-- SHA-256 of a byte list: the 8-word digest state. -/
def sha256Words (msg : List Nat) : List Nat :=
  let padded := shaPad msg
  (chunks64 (padded.length / 64) padded).foldl shaChunk shaH0

/-- Lowercase hex digit. -/
def hexDigit (n : Nat) : Char :=
  if n < 10 then Char.ofNat (48 + n) else Char.ofNat (87 + n)

/-- Lowercase 8-digit hex rendering of a 32-bit word. -/
def hexWord (x : Nat) : List Char :=
  (List.range 8).map (fun i => hexDigit ((x >>> (4 * (7 - i))) % 16))

/-- `hashlib.sha256(data).hexdigest()`: the 64-character lowercase hex
digest. -/
def sha256hex (msg : List Nat) : String :=
  ⟨(sha256Words msg).foldr (fun wd acc => hexWord wd ++ acc) []⟩

/-- The content store: raw blob bytes by work id. -/
def Store := List (Int × List Nat)

/-- `write_html_gz` from `src/ao3_backup/storage.py`, with the external gzip
writer abstracted as an arbitrary `compress` function: encode the html as
UTF-8 with replacement, write the compressed bytes to the store, and return
`(len(data), sha256(data).hexdigest())` computed on the uncompressed bytes. -/
def write_html_gz (compress : List Nat → List Nat) (store : Store)
    (ao3_id : Int) (html : List Nat) : Store × (Nat × String) :=
  let data := pyEncode html
  ((ao3_id, compress data) :: store, (data.length, sha256hex data))

end Ao3Storage

namespace Ao3Backup

/-- States of the `queue` table reachable by the statements the source
executes against it: the multi-row `INSERT OR IGNORE` of `enqueue_ids`
(which `enqueue_range` and `create_blocks_and_enqueue` go through), the
claim SELECT+UPDATE, `requeue`, `complete`, and the update worker's single
`INSERT OR IGNORE` and mode-filtered DELETE. -/
inductive Reachable : List QueueRow → Prop
  | init : Reachable []
  | enq (q ids mode prio now) : Reachable q →
      Reachable (enqueue_ids q ids mode prio now).1
  | claim (q w n mode now) : Reachable q →
      Reachable (claim_batch_fallback q w n mode now).1
  | clUpd (q ids w now) : Reachable q → Reachable (claimUpdate q ids w now)
  | req (q i d now) : Reachable q → Reachable (requeue q i d now)
  | comp (q i) : Reachable q → Reachable (complete q i)
  | insIgnore (q i mode prio now) : Reachable q →
      Reachable (insertOrIgnore q i mode prio now)
  | delMode (q i mode) : Reachable q →
      Reachable (q.filter (fun r => !(r.id == i && r.mode == mode)))

/-- The id multiset of the queue has no duplicates. -/
def nodupIds (q : List QueueRow) : Prop :=
  (q.map (fun r => r.id)).Nodup

lemma hasId_false_iff (q : List QueueRow) (i : Int) :
    hasId q i = false ↔ i ∉ q.map (fun r => r.id) := by
  rw [← Bool.not_eq_true]
  simp only [hasId, List.any_eq_true, beq_iff_eq, List.mem_map]

lemma nodupIds_insertOrIgnore (q : List QueueRow) (i : Int) (m : String)
    (p now : Int) (h : nodupIds q) : nodupIds (insertOrIgnore q i m p now) := by
  unfold insertOrIgnore
  by_cases hx : hasId q i = true
  · simp [hx, h]
  · rw [if_neg (by simp [hx])]
    have hmem : i ∉ q.map (fun r => r.id) :=
      (hasId_false_iff q i).1 (by simpa using hx)
    unfold nodupIds at h ⊢
    simp [newRow, List.nodup_append, h, hmem]

lemma nodupIds_enqueue (q : List QueueRow) (ids : List Int) (m : String)
    (p now : Int) (h : nodupIds q) : nodupIds (enqueue_ids q ids m p now).1 := by
  induction ids generalizing q with
  | nil => simpa [enqueue_ids]
  | cons x xs ih =>
    have := ih (insertOrIgnore q x m p now) (nodupIds_insertOrIgnore q x m p now h)
    simpa [enqueue_ids] using this

lemma nodupIds_map_id_preserving (q : List QueueRow) (f : QueueRow → QueueRow)
    (hf : ∀ r, (f r).id = r.id) (h : nodupIds q) : nodupIds (q.map f) := by
  unfold nodupIds at h ⊢
  have h2 : (q.map f).map (fun r => r.id) = q.map (fun r => (f r).id) := by
    rw [List.map_map]; rfl
  rw [h2, List.map_congr_left (fun r _ => hf r)]
  exact h

lemma nodupIds_filter (q : List QueueRow) (p : QueueRow → Bool)
    (h : nodupIds q) : nodupIds (q.filter p) := by
  unfold nodupIds at h ⊢
  exact h.sublist ((List.filter_sublist q).map (fun r => r.id))

lemma reachable_nodupIds (q : List QueueRow) (h : Reachable q) : nodupIds q := by
  induction h with
  | init => simp [nodupIds]
  | enq q ids mode prio now _ ih => exact nodupIds_enqueue q ids mode prio now ih
  | claim q w n mode now _ ih =>
    show nodupIds (claimUpdate q (claimSelect q mode n now) w now)
    unfold claimUpdate
    exact nodupIds_map_id_preserving q _ (fun r => by split <;> rfl) ih
  | clUpd q ids w now _ ih =>
    unfold claimUpdate
    exact nodupIds_map_id_preserving q _ (fun r => by split <;> rfl) ih
  | req q i d now _ ih =>
    unfold requeue
    exact nodupIds_map_id_preserving q _ (fun r => by split <;> rfl) ih
  | comp q i _ ih => exact nodupIds_filter q _ ih
  | insIgnore q i mode prio now _ ih => exact nodupIds_insertOrIgnore q i mode prio now ih
  | delMode q i mode _ ih => exact nodupIds_filter q _ ih

lemma mem_insertSorted (a x : QueueRow) (l : List QueueRow) :
    x ∈ insertSorted a l ↔ x = a ∨ x ∈ l := by
  induction l with
  | nil => simp [insertSorted]
  | cons b bs ih =>
    unfold insertSorted
    by_cases h : rowLE a b = true
    · simp [h]
    · simp [h, ih]
      tauto

lemma mem_sortRows (x : QueueRow) (l : List QueueRow) :
    x ∈ sortRows l ↔ x ∈ l := by
  induction l with
  | nil => simp [sortRows]
  | cons b bs ih =>
    unfold sortRows at ih ⊢
    simp [List.foldr_cons, mem_insertSorted, ih]

lemma claimSelect_sound (q : List QueueRow) (mode : String) (n : Nat)
    (now : Int) (i : Int) (h : i ∈ claimSelect q mode n now) :
    ∃ r ∈ q, r.id = i ∧ claimable r mode now = true := by
  unfold claimSelect at h
  rcases List.mem_map.1 h with ⟨r, hr, hid⟩
  have hr2 : r ∈ sortRows (q.filter (fun r => claimable r mode now)) :=
    List.mem_of_mem_take hr
  have hr3 : r ∈ q.filter (fun r => claimable r mode now) :=
    (mem_sortRows r _).1 hr2
  rcases List.mem_filter.1 hr3 with ⟨hq, hcl⟩
  exact ⟨r, hq, hid, hcl⟩

lemma claimUpdate_locks (q : List QueueRow) (ids : List Int) (w : String)
    (now : Int) (r' : QueueRow) (h : r' ∈ claimUpdate q ids w now)
    (hid : ids.contains r'.id = true) : r'.locked_by.isSome = true := by
  unfold claimUpdate at h
  rcases List.mem_map.1 h with ⟨r, _, hr⟩
  by_cases hc : (ids.contains r.id && r.locked_by.isNone) = true
  · rw [if_pos hc] at hr
    subst hr; rfl
  · rw [if_neg hc] at hr
    subst hr
    cases hlb : r.locked_by with
    | some v => rfl
    | none =>
      refine absurd ?_ hc
      rw [hid, hlb]
      rfl

lemma claimUpdate_keeps_locked (q : List QueueRow) (ids : List Int)
    (w : String) (now : Int) (r : QueueRow) (hq : r ∈ q)
    (hl : r.locked_by.isSome = true) : r ∈ claimUpdate q ids w now := by
  unfold claimUpdate
  have : (if ids.contains r.id && r.locked_by.isNone then
      { r with locked_by := some w, locked_at := some now } else r) = r := by
    have : r.locked_by.isNone = false := by
      cases hlb : r.locked_by <;> simp_all
    simp [this]
  exact this ▸ List.mem_map_of_mem _ hq

lemma countId_eq_zero (q : List QueueRow) (i : Int) (h : hasId q i = false) :
    countId q i = 0 := by
  have hni := (hasId_false_iff q i).1 h
  unfold countId
  rw [List.length_eq_zero, List.filter_eq_nil_iff]
  intro r hr hbeq
  exact hni (List.mem_map.2 ⟨r, hr, by simpa using hbeq⟩)

lemma hasId_append_one (q : List QueueRow) (x : Int) (m : String) (p now i : Int) :
    hasId (q ++ [newRow x m p now]) i = (hasId q i || (x == i)) := by
  simp [hasId, newRow, List.any_append]

lemma countId_append_one (q : List QueueRow) (x : Int) (m : String) (p now i : Int) :
    countId (q ++ [newRow x m p now]) i =
      countId q i + (if (x == i) = true then 1 else 0) := by
  unfold countId
  rw [List.filter_append, List.length_append]
  congr 1
  by_cases hx : (x == i) = true <;> simp [newRow, hx]

lemma countId_enqueue (ids : List Int) (m : String) (p now : Int) (i : Int) :
    ∀ q, countId (enqueue_ids q ids m p now).1 i =
      if hasId q i = true then countId q i
      else if ids.contains i then 1 else 0 := by
  induction ids with
  | nil =>
    intro q
    by_cases h : hasId q i = true
    · simp [enqueue_ids, h]
    · have hz : countId q i = 0 := countId_eq_zero q i (by simpa using h)
      simp [enqueue_ids, h, hz]
  | cons x xs ih =>
    intro q
    have hstep : (enqueue_ids q (x :: xs) m p now).1 =
        (enqueue_ids (insertOrIgnore q x m p now) xs m p now).1 := rfl
    rw [hstep, ih]
    by_cases hix : i = x
    · subst hix
      by_cases hx : hasId q i = true
      · have hq : insertOrIgnore q i m p now = q := by simp [insertOrIgnore, hx]
        rw [hq]
        simp [hx]
      · have hq : insertOrIgnore q i m p now = q ++ [newRow i m p now] := by
          simp [insertOrIgnore, hx]
        have h1 : hasId (q ++ [newRow i m p now]) i = true := by
          rw [hasId_append_one]; simp
        rw [hq, if_pos h1, countId_append_one,
          countId_eq_zero q i (by simpa using hx)]
        simp [hx]
    · have hbeq : (x == i) = false := by simpa using Ne.symm hix
      by_cases hx : hasId q x = true
      · have hq : insertOrIgnore q x m p now = q := by simp [insertOrIgnore, hx]
        rw [hq]
        by_cases hi : hasId q i = true
        · simp [hi]
        · simp [hi, hix]
      · have hq : insertOrIgnore q x m p now = q ++ [newRow x m p now] := by
          simp [insertOrIgnore, hx]
        have h1 : hasId (q ++ [newRow x m p now]) i = hasId q i := by
          rw [hasId_append_one, hbeq]; simp
        have h2 : countId (q ++ [newRow x m p now]) i = countId q i := by
          rw [countId_append_one, hbeq]; simp
        rw [hq, h1, h2]
        by_cases hi : hasId q i = true
        · simp [hi]
        · simp [hi, hix]

lemma enqueue_extends (ids : List Int) (m : String) (p now : Int) :
    ∀ q, ∃ rest, (enqueue_ids q ids m p now).1 = q ++ rest := by
  induction ids with
  | nil => intro q; exact ⟨[], by simp [enqueue_ids]⟩
  | cons x xs ih =>
    intro q
    have hstep : (enqueue_ids q (x :: xs) m p now).1 =
        (enqueue_ids (insertOrIgnore q x m p now) xs m p now).1 := rfl
    rcases ih (insertOrIgnore q x m p now) with ⟨rest, hrest⟩
    by_cases hx : hasId q x = true
    · exact ⟨rest, by rw [hstep, hrest]; simp [insertOrIgnore, hx]⟩
    · refine ⟨[newRow x m p now] ++ rest, ?_⟩
      rw [hstep, hrest]
      simp [insertOrIgnore, hx]

/-- C1 (amended): on the postgresql dialect `claim_batch` performs selection
and lock-marking as a single atomic statement, and the id sets returned by two
such atomic claims, executed one after the other in either order and by any
two callers against the same mode, are disjoint; the fallback dialects instead
issue a separate SELECT followed by an UPDATE, and while that UPDATE never
overwrites an existing lock, the id sets returned to two interleaved callers
may overlap. -/
theorem claim_batch_atomic_no_double_claim (q : List QueueRow)
    (wA wB : String) (nA nB : Nat) (mode : String) (nowA nowB : Int) :
    List.Disjoint (claim_batch_pg q wA nA mode nowA).2
      (claim_batch_pg (claim_batch_pg q wA nA mode nowA).1 wB nB mode nowB).2
    ∧ (∀ ids w now r, r ∈ q → r.locked_by.isSome = true →
        r ∈ claimUpdate q ids w now) := by
  constructor
  · intro i hiA hiB
    have hiB2 : i ∈ claimSelect (claimUpdate q (claimSelect q mode nA nowA) wA nowA)
        mode nB nowB := hiB
    rcases claimSelect_sound _ mode nB nowB i hiB2 with ⟨r, hrq1, hrid, hcl⟩
    have hlock : r.locked_by.isSome = true := by
      refine claimUpdate_locks q (claimSelect q mode nA nowA) wA nowA r hrq1 ?_
      rw [hrid]
      have hiA2 : i ∈ claimSelect q mode nA nowA := hiA
      simp [hiA2]
    have hnone : r.locked_by.isNone = true := by
      unfold claimable at hcl
      rcases Bool.and_eq_true_iff.1 hcl with ⟨hab, _⟩
      exact (Bool.and_eq_true_iff.1 hab).2
    cases hlb : r.locked_by with
    | none => rw [hlb] at hlock; exact Bool.noConfusion hlock
    | some v => rw [hlb] at hnone; exact Bool.noConfusion hnone
  · intro ids w now r hq hl
    exact claimUpdate_keeps_locked q ids w now r hq hl

/-- Witness for C1's amended theorem: with one unlocked row (id 1) and one
row already locked by X (id 2), an atomic claim by A followed by one by B
returns disjoint id sets, and the fallback UPDATE naming id 2 leaves X's lock
in place. -/
theorem claim_batch_atomic_no_double_claim_witness :
    List.Disjoint
      (claim_batch_pg [newRow 1 "guest" 100 0,
        ⟨2, "guest", 100, 0, 0, some "X", some 0⟩] "A" 1 "guest" 0).2
      (claim_batch_pg (claim_batch_pg [newRow 1 "guest" 100 0,
        ⟨2, "guest", 100, 0, 0, some "X", some 0⟩] "A" 1 "guest" 0).1
        "B" 1 "guest" 0).2
    ∧ (⟨2, "guest", 100, 0, 0, some "X", some 0⟩ : QueueRow) ∈
        claimUpdate [newRow 1 "guest" 100 0,
          ⟨2, "guest", 100, 0, 0, some "X", some 0⟩] [2] "A" 0 :=
  ⟨(claim_batch_atomic_no_double_claim [newRow 1 "guest" 100 0,
      ⟨2, "guest", 100, 0, 0, some "X", some 0⟩] "A" "B" 1 1 "guest" 0 0).1,
   (claim_batch_atomic_no_double_claim [newRow 1 "guest" 100 0,
      ⟨2, "guest", 100, 0, 0, some "X", some 0⟩] "A" "B" 1 1 "guest" 0 0).2
     [2] "A" 0 ⟨2, "guest", 100, 0, 0, some "X", some 0⟩ (by decide) (by decide)⟩

/-- Counterexample to C1 as stated: on the non-postgresql path of
`claim_batch`, the SELECT and the UPDATE are two separate statements, and in
the interleaving where both callers run their SELECT before either UPDATE,
both callers are returned the same id 1 — their claimed sets are not
disjoint. -/
theorem claim_batch_fallback_interleaving_overlap :
    (claimInterleaved [newRow 1 "guest" 100 0] "A" "B" 1 1 "guest" 0).1 = [1]
    ∧ (claimInterleaved [newRow 1 "guest" 100 0] "A" "B" 1 1 "guest" 0).2.1 = [1]
    ∧ 1 ∈ (claimInterleaved [newRow 1 "guest" 100 0] "A" "B" 1 1 "guest" 0).1
    ∧ 1 ∈ (claimInterleaved [newRow 1 "guest" 100 0] "A" "B" 1 1 "guest" 0).2.1 := by
  decide

/-- C2 (code bug): when an id claimed under mode `update` classifies as
restricted, the update worker's persistence transaction runs `INSERT OR
IGNORE INTO queue (id, mode, priority) VALUES (id, 'auth', 50)` while the
claimed row still occupies the id's single queue slot (the primary key is
`id` alone), so the insert is ignored; the subsequent
`DELETE ... WHERE id = id AND mode = 'update'` then removes that row.  The id
ends up in no queue at all — dropped, not escalated to `auth`. -/
theorem update_worker_restricted_drops_escalation :
    (updateWorkerRestrictedStep
      ⟨[⟨42, "update", 100, 0, 0, some "worker-1", some 0⟩], [], []⟩
      42 200 "worker-1" 5).queue = []
    ∧ (updateWorkerRestrictedStep
        ⟨[⟨42, "update", 100, 0, 0, some "worker-1", some 0⟩], [], []⟩
        42 200 "worker-1" 5).works = [⟨42, "restricted", true, true⟩] := by
  decide

/-- Counterexample to C3 as stated: enqueueing id 1 into a queue that already
holds a row for id 1 inserts nothing (the queue is unchanged), yet
`enqueue_ids` returns 1, not the claimed count-actually-inserted 0. -/
theorem enqueue_ids_count_overlap :
    (enqueue_ids [newRow 1 "guest" 100 0] [1] "guest" 100 0).2 = 1
    ∧ (enqueue_ids [newRow 1 "guest" 100 0] [1] "guest" 100 0).1 =
        [newRow 1 "guest" 100 0] := by
  decide

/-- C3 (amended): `enqueue_ids` is an insert-if-absent for each id — an id
that already has a queue row is left untouched (no error, no duplicate row;
an absent id listed gets exactly one new row appended) — but the returned
count is the number of ids passed, not the number of rows actually
inserted. -/
theorem enqueue_ids_insert_if_absent (q : List QueueRow) (ids : List Int)
    (mode : String) (prio now : Int) (i : Int) :
    (enqueue_ids q ids mode prio now).2 = ids.length
    ∧ countId (enqueue_ids q ids mode prio now).1 i =
        (if hasId q i = true then countId q i
         else if ids.contains i = true then 1 else 0)
    ∧ ∃ rest, (enqueue_ids q ids mode prio now).1 = q ++ rest :=
  ⟨rfl, countId_enqueue ids mode prio now i q, enqueue_extends ids mode prio now q⟩

/-- C9: in every reachable queue state each id has at most one row across all
modes (the id column is the sole primary key, so the id multiset is
duplicate-free); enqueueing an id that already has a row — under any mode —
is a silent no-op leaving the existing row, including its mode, unchanged;
and `complete` deletes the id's queue row regardless of its mode while
keeping every other row. -/
theorem queue_single_row_per_id (q : List QueueRow) (h : Reachable q) :
    nodupIds q
    ∧ (∀ i mode prio now, hasId q i = true →
        (enqueue_ids q [i] mode prio now).1 = q)
    ∧ (∀ i, (complete q i).all (fun r => !(r.id == i)) = true)
    ∧ (∀ i r, r ∈ q → r.id ≠ i → r ∈ complete q i) := by
  refine ⟨reachable_nodupIds q h, ?_, ?_, ?_⟩
  · intro i mode prio now hi
    simp [enqueue_ids, insertOrIgnore, hi]
  · intro i
    rw [List.all_eq_true]
    intro r hr
    exact (List.mem_filter.1 hr).2
  · intro i r hr hne
    exact List.mem_filter.2 ⟨hr, by simpa using hne⟩

/-- Witness for C9: after enqueueing id 7 in guest mode, enqueueing id 7
again under mode auth (different priority and time) leaves the queue
unchanged — the guest row survives — and completing id 9 keeps id 7's row. -/
theorem queue_single_row_per_id_witness :
    (enqueue_ids (enqueue_ids [] [7] "guest" 100 0).1 [7] "auth" 50 3).1 =
        (enqueue_ids [] [7] "guest" 100 0).1
    ∧ newRow 7 "guest" 100 0 ∈ complete (enqueue_ids [] [7] "guest" 100 0).1 9 :=
  ⟨(queue_single_row_per_id _
      (Reachable.enq [] [7] "guest" 100 0 Reachable.init)).2.1 7 "auth" 50 3
      (by decide),
   (queue_single_row_per_id _
      (Reachable.enq [] [7] "guest" 100 0 Reachable.init)).2.2.2 9
      (newRow 7 "guest" 100 0) (by decide) (by decide)⟩

set_option maxRecDepth 100000 in
/-- C6: from an empty database, `create_blocks_and_enqueue 1 100 25 guest`
creates exactly the four blocks 1–25, 26–50, 51–75, 76–100 (returning block
ids 1–4) and one queue row per id 1..100; a following
`claim_batch(w, 10, guest)` returns exactly the ten distinct ids 1..10, and
each of those queue rows then carries `locked_by = w`. -/
theorem fresh_crawl_scenario :
    (create_blocks_and_enqueue emptyDB 1 100 25 "guest" 100 0).1.blocks =
      [⟨1, 1, 25, "guest", 100⟩, ⟨2, 26, 50, "guest", 100⟩,
       ⟨3, 51, 75, "guest", 100⟩, ⟨4, 76, 100, "guest", 100⟩]
    ∧ (create_blocks_and_enqueue emptyDB 1 100 25 "guest" 100 0).2 = [1, 2, 3, 4]
    ∧ (create_blocks_and_enqueue emptyDB 1 100 25 "guest" 100 0).1.queue.length = 100
    ∧ (create_blocks_and_enqueue emptyDB 1 100 25 "guest" 100 0).1.queue.map
        (fun r => r.id) = intRange 1 100
    ∧ (claim_batch_fallback
        (create_blocks_and_enqueue emptyDB 1 100 25 "guest" 100 0).1.queue
        "w" 10 "guest" 0).2 = [1, 2, 3, 4, 5, 6, 7, 8, 9, 10]
    ∧ ((claim_batch_fallback
        (create_blocks_and_enqueue emptyDB 1 100 25 "guest" 100 0).1.queue
        "w" 10 "guest" 0).1.filter
          (fun r => decide (r.id ≤ 10))).all
        (fun r => r.locked_by == some "w") = true := by
  decide

end Ao3Backup

namespace Ao3Classify

/-- C4: `classify_response` equals, for every input, the first matching rule
of the specification's ordered rule list (404 → not_found; login-redirect →
restricted; restriction phrase → restricted; withheld phrase → unrevealed;
200 → public; 401/403 → restricted; otherwise error); in particular status
404 classifies as not_found for every url, body and final URL, and status
200 with a login-page final URL classifies as restricted for every body. -/
theorem classify_response_first_match (url : String) (status_code : Int)
    (text final_url : String) :
    classify_response url status_code text final_url =
      firstMatch (specRules status_code text final_url)
    ∧ classify_response url 404 text final_url = "not_found"
    ∧ (strContains final_url "users/login" = true →
        classify_response url 200 text final_url = "restricted") := by
  refine ⟨?_, rfl, ?_⟩
  · rfl
  · intro h
    have h404 : ((200 : Int) == 404) = false := by decide
    simp [classify_response, h404, h]

/-- Witness for C4: a 200 response whose final URL is the login page is
classified restricted. -/
theorem classify_response_first_match_witness :
    classify_response "https://archiveofourown.org/works/42" 200 "some body"
      "https://archiveofourown.org/users/login?restricted=true" = "restricted" :=
  (classify_response_first_match "https://archiveofourown.org/works/42" 200
    "some body" "https://archiveofourown.org/users/login?restricted=true").2.2
    (by decide)

end Ao3Classify

namespace Ao3Creds

lemma pickLRU_mem (l : List CredentialRecord) (m : CredentialRecord)
    (h : pickLRU l = some m) : m ∈ l := by
  induction l generalizing m with
  | nil => simp [pickLRU] at h
  | cons r rs ih =>
    unfold pickLRU at h
    cases hrs : pickLRU rs with
    | none =>
      rw [hrs] at h
      exact (Option.some_inj.1 h) ▸ List.mem_cons_self r rs
    | some m₂ =>
      rw [hrs] at h
      rcases Option.some_inj.1 h with rfl
      by_cases hle : r.last_used ≤ m₂.last_used
      · simp [hle]
      · simp only [hle, decide_False, if_false]
        exact List.mem_cons_of_mem r (ih m₂ hrs)

lemma pick_mem (records : List CredentialRecord) (now : ℚ)
    (rec : CredentialRecord) (h : pick records now = some rec) :
    rec ∈ records :=
  List.mem_of_mem_filter (pickLRU_mem _ rec h)

lemma mark_rate_limited_extends (records : List CredentialRecord) (u : String)
    (now cd : ℚ) (h : ∃ r ∈ records, r.username = u) :
    ∃ r' ∈ mark_rate_limited records u now cd,
      r'.username = u ∧ now + cd ≤ r'.cooldown_until := by
  induction records with
  | nil => simp at h
  | cons r rs ih =>
    by_cases hu : (r.username == u) = true
    · refine ⟨cooldown r now cd, ?_, ?_, ?_⟩
      · unfold mark_rate_limited
        rw [if_pos hu]
        exact List.mem_cons_self _ _
      · simpa [cooldown] using (beq_iff_eq).1 hu
      · exact le_max_right _ _
    · have h2 : ∃ x ∈ rs, x.username = u := by
        rcases h with ⟨x, hx, hxu⟩
        rcases List.mem_cons.1 hx with rfl | hx2
        · exact absurd (by simp [hxu]) hu
        · exact ⟨x, hx2, hxu⟩
      rcases ih h2 with ⟨r', hr', hu', hcd⟩
      refine ⟨r', ?_, hu', hcd⟩
      unfold mark_rate_limited
      rw [if_neg hu]
      exact List.mem_cons_of_mem _ hr'

lemma mark_rate_limited_first (u : String) (now cd : ℚ) :
    ∀ (pre : List CredentialRecord) (r : CredentialRecord)
      (post : List CredentialRecord),
      (∀ x ∈ pre, x.username ≠ u) → r.username = u →
      mark_rate_limited (pre ++ r :: post) u now cd =
        pre ++ cooldown r now cd :: post := by
  intro pre
  induction pre with
  | nil =>
    intro r post _ hr
    show mark_rate_limited (r :: post) u now cd = cooldown r now cd :: post
    unfold mark_rate_limited
    rw [if_pos (by simp [hr])]
  | cons x xs ih =>
    intro r post hpre hr
    have hx : ¬(x.username == u) = true := by
      simp [hpre x (List.mem_cons_self x xs)]
    show mark_rate_limited (x :: (xs ++ r :: post)) u now cd =
      x :: (xs ++ cooldown r now cd :: post)
    unfold mark_rate_limited
    rw [if_neg hx, ih r post (fun y hy => hpre y (List.mem_cons_of_mem x hy)) hr]

/-- C8: `mark_rate_limited` is monotone — it never decreases any credential's
`cooldown_until`, and the only change it makes is to set the first record
bearing the given username to `cooldown`, i.e. to the maximum of its previous
`cooldown_until` and `now + cooldown_window`; every record before that one
(and, by the `break`, every record after it) is untouched. -/
theorem mark_rate_limited_monotone (records : List CredentialRecord)
    (u : String) (now cd : ℚ) :
    List.Forall₂ (fun r r' =>
        r.cooldown_until ≤ r'.cooldown_until ∧
          (r' = r ∨ (r.username = u ∧ r' = cooldown r now cd)))
      records (mark_rate_limited records u now cd)
    ∧ (∀ pre r post, records = pre ++ r :: post →
        (∀ x ∈ pre, x.username ≠ u) → r.username = u →
        mark_rate_limited records u now cd =
          pre ++ cooldown r now cd :: post) := by
  constructor
  · induction records with
    | nil => exact List.Forall₂.nil
    | cons r rs ih =>
      by_cases hu : (r.username == u) = true
      · unfold mark_rate_limited
        rw [if_pos hu]
        exact List.Forall₂.cons ⟨le_max_left _ _, Or.inr ⟨(beq_iff_eq).1 hu, rfl⟩⟩
          ((List.forall₂_same).2 (fun x _ => ⟨le_refl _, Or.inl rfl⟩))
      · unfold mark_rate_limited
        rw [if_neg hu]
        exact List.Forall₂.cons ⟨le_refl _, Or.inl rfl⟩ ih
  · intro pre r post heq hpre hr
    rw [heq]
    exact mark_rate_limited_first u now cd pre r post hpre hr

/-- Witness for C8: marking bob rate-limited at time 3 with a 900-second
window turns his sole record into `cooldown` of the old record — its
`cooldown_until` becomes `max 5 (3 + 900)`. -/
theorem mark_rate_limited_monotone_witness :
    mark_rate_limited [⟨"bob", "pw", 0, 5⟩] "bob" 3 900 =
      [] ++ cooldown ⟨"bob", "pw", 0, 5⟩ 3 900 :: [] :=
  (mark_rate_limited_monotone [⟨"bob", "pw", 0, 5⟩] "bob" 3 900).2
    [] ⟨"bob", "pw", 0, 5⟩ [] rfl (by simp) rfl

end Ao3Creds

namespace Ao3Requester

/-- Counterexample to C5 as stated: with capacity C = 1 and window W = 1 and
the back-to-back arrival pattern in which each call enters the moment the
previous one is admitted (entries 0, 0, 1), the limiter admits at times
0, 1, 1 — two admissions inside the window [1/2, 3/2] of length W, and three
inside [0, 1], both exceeding C.  The first call drains the initially full
bucket; the second sleeps a full window; the third is admitted with no sleep
because the source never advances its refill reference across its own sleep,
so the slept second is counted as refill a second time. -/
theorem throttle_window_bound_counterexample :
    (throttleRun (initThrottle 1 1) [0, 0, 1]).2 = [0, 1, 1]
    ∧ ([0, 0, 1] : List ℚ) = 0 :: (throttleRun (initThrottle 1 1) [0, 0, 1]).2.take 2
    ∧ countAdmitsIn (throttleRun (initThrottle 1 1) [0, 0, 1]).2 (1/2) 1 = 2
    ∧ countAdmitsIn (throttleRun (initThrottle 1 1) [0, 0, 1]).2 0 1 = 3
    ∧ (initThrottle 1 1).capacity = 1 := by
  have s0 : initThrottle 1 1 = ⟨1, 1, 1, 0⟩ := by simp [initThrottle]
  have st1 : throttleStep ⟨1, 1, 1, 0⟩ 0 = (⟨1, 1, 0, 0⟩, 0) := by
    have hr : refillTokens ⟨1, 1, 1, 0⟩ 0 = 1 := by unfold refillTokens; norm_num
    simp only [throttleStep, hr]
    norm_num
  have st2 : throttleStep ⟨1, 1, 0, 0⟩ 0 = (⟨1, 1, 0, 0⟩, 1) := by
    have hr : refillTokens ⟨1, 1, 0, 0⟩ 0 = 0 := by unfold refillTokens; norm_num
    simp only [throttleStep, hr]
    norm_num
  have st3 : throttleStep ⟨1, 1, 0, 0⟩ 1 = (⟨1, 1, 0, 1⟩, 1) := by
    have hr : refillTokens ⟨1, 1, 0, 0⟩ 1 = 1 := by unfold refillTokens; norm_num
    simp only [throttleStep, hr]
    norm_num
  have hrun : throttleRun (initThrottle 1 1) [0, 0, 1] =
      (⟨1, 1, 0, 1⟩, [0, 1, 1]) := by
    rw [s0]
    simp [throttleRun, st1, st2, st3]
  refine ⟨by rw [hrun], by rw [hrun]; rfl, ?_, ?_, by simp [initThrottle]⟩
  · rw [hrun]
    unfold countAdmitsIn
    norm_num [List.filter]
  · rw [hrun]
    unfold countAdmitsIn
    norm_num [List.filter]

/-- C5 (amended): the bucket never holds more than `capacity` tokens and
never goes negative; a call finding at least one token is admitted
immediately; a call finding fewer than one token is slept exactly
`(1 - tokens) * (window / capacity)` — precisely the time for one token to
accrue at rate capacity/window, so that exactly one token is available at the
admission instant — and the token is consumed, leaving the bucket empty.  The
at-most-capacity-per-window bound of the original claim does not hold. -/
theorem throttle_sleep_exact (st : Throttle) (now : ℚ)
    (hcap : 1 ≤ st.capacity) (hw : 0 < st.window) :
    (0 ≤ (throttleStep st now).1.tokens
      ∧ (throttleStep st now).1.tokens ≤ (st.capacity : ℚ))
    ∧ (¬ refillTokens st now < 1 → (throttleStep st now).2 = now)
    ∧ (refillTokens st now < 1 →
        (throttleStep st now).2 =
          now + (1 - refillTokens st now) * (st.window / (st.capacity : ℚ))
        ∧ refillTokens st now +
            ((throttleStep st now).2 - now) * ((st.capacity : ℚ) / st.window) = 1
        ∧ (throttleStep st now).1.tokens = 0) := by
  have hC0 : (0 : ℚ) < (st.capacity : ℚ) := by
    exact_mod_cast Nat.lt_of_lt_of_le Nat.zero_lt_one hcap
  have hCne : (st.capacity : ℚ) ≠ 0 := ne_of_gt hC0
  have hWne : st.window ≠ 0 := ne_of_gt hw
  by_cases hlt : refillTokens st now < 1
  · have hstep : throttleStep st now =
        ({ st with tokens := max 0 ((0 : ℚ) - 1), last := now },
         now + (1 - refillTokens st now) * (st.window / (st.capacity : ℚ))) := by
      simp only [throttleStep]
      rw [if_pos hlt]
    rw [hstep]
    refine ⟨⟨le_max_left 0 _, ?_⟩, fun hn => absurd hlt hn, fun _ => ⟨rfl, ?_, ?_⟩⟩
    · exact max_le (le_of_lt hC0) (by linarith)
    · field_simp
      ring
    · norm_num
  · have hstep : throttleStep st now =
        ({ st with tokens := max 0 (refillTokens st now - 1), last := now },
         now) := by
      simp only [throttleStep]
      rw [if_neg hlt]
    rw [hstep]
    have ht1 : refillTokens st now ≤ (st.capacity : ℚ) := min_le_left _ _
    exact ⟨⟨le_max_left 0 _, max_le (le_of_lt hC0) (by linarith)⟩,
      fun _ => rfl, fun h => absurd h hlt⟩

/-- Witness for C5's amended theorem: an empty bucket with capacity 1 and
window 1 at time 0 sleeps the caller until time 1, at which instant exactly
one token has accrued, and is left empty after the admission. -/
theorem throttle_sleep_exact_witness :
    (throttleStep ⟨1, 1, 0, 0⟩ 0).2 =
      0 + (1 - refillTokens ⟨1, 1, 0, 0⟩ 0) *
        ((⟨1, 1, 0, 0⟩ : Throttle).window / (((⟨1, 1, 0, 0⟩ : Throttle).capacity : ℕ) : ℚ))
    ∧ refillTokens ⟨1, 1, 0, 0⟩ 0 +
        ((throttleStep ⟨1, 1, 0, 0⟩ 0).2 - 0) *
          ((((⟨1, 1, 0, 0⟩ : Throttle).capacity : ℕ) : ℚ) /
            (⟨1, 1, 0, 0⟩ : Throttle).window) = 1
    ∧ (throttleStep ⟨1, 1, 0, 0⟩ 0).1.tokens = 0 :=
  (throttle_sleep_exact ⟨1, 1, 0, 0⟩ 0 (by decide) (by decide)).2.2
    (by simp [refillTokens])

/-- C7: a response with HTTP status 429 reaching `Requester.request` is
raised as the distinguished rate-limit signal, never returned: its
`retry_after` is the float value of the Retry-After header (header "5" gives
5.0) and absent when the header is missing or unparseable; and on the
authenticated fetch path the `except RateLimitedException` branch extends the
picked credential's cooldown to at least `now` plus the configured cooldown
window. -/
theorem rate_limit_429_signal (resp : ResponseModel)
    (records : List Ao3Creds.CredentialRecord) (now : ℚ)
    (rec : Ao3Creds.CredentialRecord) :
    (resp.status_code = 429 →
      handle_response resp = .rateLimited (parse_retry_after resp.retryAfterHeader))
    ∧ parse_retry_after (some "5") = some 5
    ∧ parse_retry_after none = none
    ∧ parse_retry_after (some "soon") = none
    ∧ (Ao3Creds.pick records now = some rec →
        ∃ r2 ∈ Ao3Creds.fetch_auth_rate_limit_branch records rec now,
          r2.username = rec.username ∧
            now + Ao3Creds.COOLDOWN_SECONDS ≤ r2.cooldown_until) := by
  refine ⟨?_, by simp [parse_retry_after, pyFloatOfChars], rfl,
    by simp [parse_retry_after, pyFloatOfChars], ?_⟩
  · intro h
    simp [handle_response, h]
  · intro hp
    exact Ao3Creds.mark_rate_limited_extends records rec.username now
      Ao3Creds.COOLDOWN_SECONDS ⟨rec, Ao3Creds.pick_mem records now rec hp, rfl⟩

/-- Witness for C7: a 429 response with Retry-After 5 becomes the rate-limit
signal, and the rate-limit branch for the picked credential alice at time 2
leaves a record for alice cooling down until at least 2 + 900. -/
theorem rate_limit_429_signal_witness :
    handle_response ⟨429, some "5"⟩ =
      .rateLimited (parse_retry_after ((⟨429, some "5"⟩ : ResponseModel).retryAfterHeader))
    ∧ ∃ r2 ∈ Ao3Creds.fetch_auth_rate_limit_branch
        [⟨"alice", "pw", 0, 0⟩] ⟨"alice", "pw", 0, 0⟩ 2,
        r2.username = (⟨"alice", "pw", 0, 0⟩ : Ao3Creds.CredentialRecord).username ∧
          (2 : ℚ) + Ao3Creds.COOLDOWN_SECONDS ≤ r2.cooldown_until :=
  ⟨(rate_limit_429_signal ⟨429, some "5"⟩ [] 0 ⟨"", "", 0, 0⟩).1 rfl,
   (rate_limit_429_signal ⟨429, some "5"⟩ [⟨"alice", "pw", 0, 0⟩] 2
      ⟨"alice", "pw", 0, 0⟩).2.2.2.2 (by decide)⟩

end Ao3Requester

namespace Ao3Storage

set_option maxRecDepth 1000000 in
lemma sha256hex_empty_vector :
    sha256hex [] =
      "e3b0c44298fc1c149afbf4c8996fb92427ae41e4649b934ca495991b7852b855" := by
  decide

set_option maxRecDepth 1000000 in
lemma sha256hex_abc_vector :
    sha256hex [97, 98, 99] =
      "ba7816bf8f01cfea414140de5dae2223b00361a396177a9cb410ff61f20015ad" := by
  decide

/-- C10: `write_html_gz` returns the pair (size, sha) where size is the byte
length of the UTF-8 encoding of the html (unencodable characters replaced)
and sha is the SHA-256 hex digest of those same uncompressed bytes, for every
choice of the gzip compressor — the recorded values describe the uncompressed
document while the store receives the compressed blob, so checking the
recorded hash against the stored blob requires decompressing first. -/
theorem write_html_gz_uncompressed_hash (compress : List Nat → List Nat)
    (store : Store) (i : Int) (html : List Nat)
    (decompress : List Nat → List Nat) :
    (write_html_gz compress store i html).2 =
      ((pyEncode html).length, sha256hex (pyEncode html))
    ∧ (write_html_gz compress store i html).1 =
        (i, compress (pyEncode html)) :: store
    ∧ ((∀ x, decompress (compress x) = x) →
        sha256hex (decompress (compress (pyEncode html))) =
          (write_html_gz compress store i html).2.2) := by
  refine ⟨rfl, rfl, ?_⟩
  intro hinv
  rw [hinv]
  rfl

/-- Witness for C10: with reversal as the stand-in compressor, hashing the
decompressed stored blob reproduces the recorded digest. -/
theorem write_html_gz_uncompressed_hash_witness :
    sha256hex (List.reverse (List.reverse (pyEncode [104, 105]))) =
      (write_html_gz List.reverse [] 3 [104, 105]).2.2 :=
  (write_html_gz_uncompressed_hash List.reverse [] 3 [104, 105]
    List.reverse).2.2 (fun x => List.reverse_reverse x)

end Ao3Storage
